import Mathlib

/-!
Verification development for the plainspeak real-time transcription core.

JavaScript strings are modelled as lists of characters (`JStr`), so that
`trim`, `toLowerCase` and `join` are fully computable and provable.
Timestamps (`Date.now()` values) are modelled as integers in milliseconds.
Asynchronous collaborator calls are modelled by passing the outcome of the
call as an explicit argument; a call that throws or rejects is one of the
outcome constructors, so totality of the Lean functions models the
"never throws to the caller" behaviour of the source.
-/

namespace Plainspeak

/-! ### JavaScript string primitives -/

/-- A JavaScript string, modelled as a list of characters. -/
abbrev JStr := List Char

/-- Embed a Lean string literal as a `JStr`. -/
def js (s : String) : JStr := s.toList

/-- JavaScript `String.prototype.trim`: strip whitespace from both ends. -/
def jsTrim (s : JStr) : JStr :=
  ((s.dropWhile Char.isWhitespace).reverse.dropWhile Char.isWhitespace).reverse

/-- JavaScript `Array.prototype.join(" ")` on an array of strings. -/
def jsJoinSpace : List JStr → JStr
  | [] => []
  | [w] => w
  | w :: x :: rest => w ++ ' ' :: jsJoinSpace (x :: rest)

/-- JavaScript `String.prototype.toLowerCase` (ASCII case folding). -/
def jsToLower (s : JStr) : JStr := s.map Char.toLower

/-! ### Rolling transcript buffer
(`useElevenLabsTranscription.ts`: `cleanScribeBuffer`, `getBufferedTranscript`,
`handleCommitted`; `WebSocketTranscription`: `cleanBuffer`,
`getBufferedTranscript`, `committed_transcript` branch). -/

/-- A committed transcript segment held in the rolling buffer
(`TranscriptEntry` in the source). -/
structure TranscriptEntry where
  text : JStr
  timestamp : Int
  deriving DecidableEq, Repr

/-- `BUFFER_DURATION_MS = 60000`: the 60-second retention window. -/
def BUFFER_DURATION_MS : Int := 60000

/-- `cleanScribeBuffer` / `WebSocketTranscription.cleanBuffer`:
keep only the entries with `timestamp > now - BUFFER_DURATION_MS`. -/
def cleanBuffer (now : Int) (b : List TranscriptEntry) : List TranscriptEntry :=
  b.filter (fun e => decide (e.timestamp > now - BUFFER_DURATION_MS))

/-- `getBufferedTranscript(seconds)`: filter entries with
`timestamp > now - seconds * 1000`, map to their text, join with spaces
and trim the result. -/
def getBufferedTranscript (now seconds : Int) (b : List TranscriptEntry) : JStr :=
  jsTrim (jsJoinSpace
    ((b.filter (fun e => decide (e.timestamp > now - seconds * 1000))).map
      (fun e => e.text)))

/-- Appending a committed segment: first evict via `cleanBuffer`, then push
the new entry with the current timestamp (`handleCommitted` /
the `committed_transcript` branch of `ws.onmessage`). -/
def appendSegment (now : Int) (text : JStr) (b : List TranscriptEntry) :
    List TranscriptEntry :=
  cleanBuffer now b ++ [⟨text, now⟩]

/-- The spec scenario: segments at t=0s "hello", t=10s "world", t=70s "foo". -/
def scenarioBuffer : List TranscriptEntry :=
  appendSegment 70000 (js "foo")
    (appendSegment 10000 (js "world")
      (appendSegment 0 (js "hello") []))

/-- Modelled from the spec wording of the query: the segments whose
timestamp satisfies `timestamp >= now - w` (seconds), chronological order,
space-joined. -/
def querySpecGe (now w : Int) (b : List TranscriptEntry) : JStr :=
  jsTrim (jsJoinSpace
    ((b.filter (fun e => decide (e.timestamp ≥ now - w * 1000))).map
      (fun e => e.text)))

/-- The amended query specification: strictly within `w` seconds of now,
i.e. `now - timestamp < w * 1000`. -/
def querySpecGt (now w : Int) (b : List TranscriptEntry) : JStr :=
  jsTrim (jsJoinSpace
    ((b.filter (fun e => decide (now - e.timestamp < w * 1000))).map
      (fun e => e.text)))

/-! ### Audio source acquisition (`startListening` in
`useElevenLabsTranscription.ts`). -/

/-- The configured audio source mode. -/
inductive AudioSource
  | microphone
  | computer
  | both
  deriving DecidableEq, Repr

/-- Outcome of the `getDisplayMedia` request: denied/failed, or granted a
stream that may or may not contain an audio track. -/
inductive DisplayCapture
  | denied
  | granted (hasAudio : Bool)
  deriving DecidableEq, Repr

/-- The platform/user environment `startListening` runs against:
`supportsSystemAudio()` (desktop Chrome/Edge capability), whether
`getUserMedia` succeeds, and the outcome of `getDisplayMedia`. -/
structure StartEnv where
  canUseSystemAudio : Bool
  micGranted : Bool
  display : DisplayCapture
  deriving DecidableEq, Repr

/-- The observable result of `startListening`: a hard failure (an error is
set and no capture begins), a WebSocket session over the given stream, or a
Scribe SDK microphone session, possibly with a surfaced notice. -/
inductive StartResult
  | startFailed (err : JStr)
  | wsMixed
  | wsDisplayOnly
  | wsMicOnly
  | scribeMic (notice : Option JStr)
  deriving DecidableEq, Repr

/-- Error set when computer-mode display capture fails. -/
def systemAudioErrorMsg : JStr :=
  js "System audio capture was denied or is not available. Please try Microphone mode."

/-- Notice set when system audio is requested but unsupported. -/
def fallbackNoticeMsg : JStr :=
  js "Computer audio capture is only supported on desktop Chrome/Edge. Falling back to microphone."

/-- Error set when `getUserMedia` is denied. -/
def micDeniedMsg : JStr :=
  js "Microphone access denied. Please allow microphone access."

/-- Error set when no stream at all could be produced. -/
def noAudioSourceMsg : JStr :=
  js "No audio source available"

/-- `needsSystemAudio = audioSource === "computer" || audioSource === "both"`. -/
def needsSystemAudio (src : AudioSource) : Bool :=
  src == .computer || src == .both

/-- The control flow of `startListening`: WebSocket mode when system audio
is needed and supported, otherwise Scribe SDK microphone mode (with a
fallback notice when system audio was requested but unsupported). -/
def startListening (src : AudioSource) (env : StartEnv) : StartResult :=
  if needsSystemAudio src && env.canUseSystemAudio then
    if src == .both && !env.micGranted then
      .startFailed micDeniedMsg
    else
      let hasMic := src == .both
      match env.display with
      | .denied =>
        if src == .computer then .startFailed systemAudioErrorMsg
        else if hasMic then .wsMicOnly
        else .startFailed noAudioSourceMsg
      | .granted hasAudio =>
        if hasMic && hasAudio then .wsMixed
        else if hasAudio then .wsDisplayOnly
        else if hasMic then .wsMicOnly
        else .startFailed noAudioSourceMsg
  else
    .scribeMic
      (if needsSystemAudio src && !env.canUseSystemAudio then some fallbackNoticeMsg
       else none)

/-! ### On-demand word explanation (`explainWord` in `useJargonDetection`). -/

/-- The body of a successful explain-word collaborator response
(`isJargon` and `explanation` fields may each be absent). -/
structure ExplainData where
  isJargon : Option Bool
  explanation : Option JStr
  deriving DecidableEq, Repr

/-- Outcome of one explain-word collaborator call: `failed` covers both an
`error` return from `invoke` and a thrown/rejected call; `ok` carries the
(possibly null) response body. -/
inductive ExplainResp
  | failed
  | ok (data : Option ExplainData)
  deriving DecidableEq, Repr

/-- The explanation cache, a map from lowercase word keys to explanations,
modelled as an association list with most recent binding first. -/
abbrev ExplanationCache := List (JStr × JStr)

/-- `explainWord(word, context)`, with the collaborator outcome passed
explicitly.  Returns the `{isJargon, explanation}` pair together with the
cache after the call.  Mirrors the source line by line: cache check on the
lowercased key first (a hit returns `isJargon=true` and the cached text
without consulting the collaborator); on failure the safe default
`{isJargon:false, explanation:null}`; on success the explanation is cached
whenever it is a non-empty (truthy) string, and the response fields are
returned with `?? false` / `?? null` defaults. -/
def explainWord (word : JStr) (resp : ExplainResp) (cache : ExplanationCache) :
    (Bool × Option JStr) × ExplanationCache :=
  let cacheKey := jsToLower word
  match cache.lookup cacheKey with
  | some cached => ((true, some cached), cache)
  | none =>
    match resp with
    | .failed => ((false, none), cache)
    | .ok none => ((false, none), cache)
    | .ok (some d) =>
      match d.explanation with
      | some e =>
        if e = [] then ((d.isJargon.getD false, some e), cache)
        else ((d.isJargon.getD false, some e), (cacheKey, e) :: cache)
      | none => ((d.isJargon.getD false, none), cache)

/-! ### Periodic batch jargon detection (`detectJargon` and the
periodic-detection effect in `useJargonDetection`). -/

/-- Default `detectionIntervalMs`. -/
def detectionIntervalMsDefault : Int := 5000

/-- Coordinator state: the last successfully analyzed transcript snapshot,
the accumulated lowercase jargon word set (insertion-ordered, duplicates
skipped, like a JS `Set`), and the log of classifier invocations
`(time, transcript)` made so far. -/
structure DetState where
  lastAnalyzed : JStr
  detectedJargon : List JStr
  invocations : List (Int × JStr)
  deriving DecidableEq, Repr

/-- JS `Set.add`: append if not already present. -/
def insertWord (w : JStr) (l : List JStr) : List JStr :=
  if w ∈ l then l else l ++ [w]

/-- `detectJargon(text)` with the classifier outcome passed explicitly:
`none` models an `error` return, a thrown call, or a response without a
`jargonWords` array (no state change beyond the invocation itself);
`some ws` models a response with `jargonWords: ws`.  The guard skips the
call entirely when the text trims empty or equals the last analyzed
snapshot. -/
def detectJargon (time : Int) (text : JStr) (resp : Option (List JStr))
    (s : DetState) : DetState :=
  if jsTrim text = [] ∨ text = s.lastAnalyzed then s
  else
    match resp with
    | none => { s with invocations := s.invocations ++ [(time, text)] }
    | some ws =>
      { lastAnalyzed := text
        detectedJargon := ws.foldl (fun acc w => insertWord (jsToLower w) acc) s.detectedJargon
        invocations := s.invocations ++ [(time, text)] }

/-- An event seen by the periodic-detection effect: either the transcript
reference changes (the effect re-runs and calls `detectJargon`
immediately, restarting the interval), or an interval tick fires with the
current transcript. -/
inductive DetEvent
  | change (time : Int) (transcript : JStr) (resp : Option (List JStr))
  | tick (time : Int) (resp : Option (List JStr))
  deriving DecidableEq, Repr

/-- The live session as the effect sees it: the current transcript plus
the coordinator state. -/
structure DetSession where
  transcript : JStr
  det : DetState
  deriving DecidableEq, Repr

/-- One step of the periodic-detection effect.  A transcript change runs
`detectJargon` on the new transcript at once; a tick runs it only when the
transcript differs from the last analyzed snapshot. -/
def detStep (s : DetSession) (ev : DetEvent) : DetSession :=
  match ev with
  | .change t txt resp => { transcript := txt, det := detectJargon t txt resp s.det }
  | .tick t resp =>
    if s.transcript = s.det.lastAnalyzed then s
    else { s with det := detectJargon t s.transcript resp s.det }

/-- Run a sequence of detection events. -/
def detRun (evs : List DetEvent) (s : DetSession) : DetSession :=
  evs.foldl detStep s

/-! ### PCM audio encoder (`WebSocketTranscription.startAudioCapture`).
Audio samples are modelled as rationals; the `Int16Array` store truncates
the scaled value toward zero, as JavaScript `ToInt16` does on the in-range
values produced here. -/

/-- The fixed target sample rate (16 kHz). -/
def targetSampleRate : ℚ := 16000

/-- `Math.max(-1, Math.min(1, v))`. -/
def clampSample (x : ℚ) : ℚ := max (-1) (min 1 x)

/-- Scale a clamped sample to the int16 range and store it:
`s < 0 ? s * 0x8000 : s * 0x7fff`, truncated toward zero by the typed
array store. -/
def int16OfSample (x : ℚ) : ℤ :=
  let s := clampSample x
  if s < 0 then ⌈s * 0x8000⌉ else ⌊s * 0x7FFF⌋

/-- `resampleRatio = nativeSampleRate / targetSampleRate`. -/
def rateQuotient (nativeRate : ℕ) : ℚ := (nativeRate : ℚ) / targetSampleRate

/-- `outputLength = Math.floor(inputData.length / resampleRatio)`. -/
def outputLength (nativeRate inputLen : ℕ) : ℕ :=
  (⌊(inputLen : ℚ) / rateQuotient nativeRate⌋).toNat

/-- `srcIndex = Math.floor(i * resampleRatio)`. -/
def srcIndex (nativeRate i : ℕ) : ℕ :=
  (⌊(i : ℚ) * rateQuotient nativeRate⌋).toNat

/-- One `onaudioprocess` callback: produce `outputLength` 16-bit samples,
the `i`-th taken from source index `floor(i * ratio)`, clamped and scaled. -/
def encodeFrame (nativeRate : ℕ) (input : List ℚ) : List ℤ :=
  (List.range (outputLength nativeRate input.length)).map
    (fun i => int16OfSample (input.getD (srcIndex nativeRate i) 0))

/-! ### Committed transcript accumulation (`handleCommitted` in
`useElevenLabsTranscription.ts` and the `committed_transcript` branch of
`WebSocketTranscription` with its `onCommittedTranscript` consumer). -/

/-- The live transcript state of a session consumer: the list of committed
segment texts appended so far (the pushes to the rolling buffer, kept in
full here to compare against the accumulated text), the accumulated
committed text and the interim text. -/
structure LiveTranscript where
  segments : List JStr
  committedText : JStr
  interimText : JStr
  deriving DecidableEq, Repr

/-- Scribe-path `handleCommitted(data)`: if `data.text.trim()` is truthy,
push the trimmed text as a segment, set the transcript to
`(prev + " " + data.text).trim()` (note: the raw, untrimmed text is
appended) and clear the interim text; otherwise do nothing. -/
def handleCommitted (raw : JStr) (s : LiveTranscript) : LiveTranscript :=
  if jsTrim raw ≠ [] then
    { segments := s.segments ++ [jsTrim raw]
      committedText := jsTrim (s.committedText ++ ' ' :: raw)
      interimText := [] }
  else s

/-- WebSocket-path committed handling: `msg.text?.trim()` is pushed and
forwarded, and the consumer sets the transcript to
`(prev + " " + text).trim()` with the already-trimmed text. -/
def wsCommitted (raw : JStr) (s : LiveTranscript) : LiveTranscript :=
  if jsTrim raw ≠ [] then
    { segments := s.segments ++ [jsTrim raw]
      committedText := jsTrim (s.committedText ++ ' ' :: jsTrim raw)
      interimText := [] }
  else s

/-- Run a session's worth of committed events through the Scribe handler. -/
def runCommitted (evs : List JStr) (s : LiveTranscript) : LiveTranscript :=
  evs.foldl (fun st t => handleCommitted t st) s

/-- A well-formed segment text: trimmed and non-empty. -/
def goodSeg (w : JStr) : Prop := jsTrim w = w ∧ w ≠ []

/-- The first character, if any, is not whitespace. -/
def headNotWS (l : JStr) : Prop := ∀ c ∈ l.head?, c.isWhitespace = false

/-- The last character, if any, is not whitespace. -/
def lastNotWS (l : JStr) : Prop := ∀ c ∈ l.getLast?, c.isWhitespace = false

/-! ### The "is explaining" flag (`isExplaining` in `useJargonDetection`). -/

/-- Start/completion events of cache-missing `explainWord` requests, tagged
with a request identifier. -/
inductive ExplainEvent
  | start (id : ℕ)
  | finish (id : ℕ)
  deriving DecidableEq, Repr

/-- The outstanding request set together with the UI flag. -/
structure ExplainFlag where
  pending : List ℕ
  isExplaining : Bool
  deriving DecidableEq, Repr

/-- One interleaving step: a request start runs `setIsExplaining(true)`;
any request completion runs the `finally` block `setIsExplaining(false)`. -/
def explainFlagStep (s : ExplainFlag) (ev : ExplainEvent) : ExplainFlag :=
  match ev with
  | .start i => { pending := i :: s.pending, isExplaining := true }
  | .finish i => { pending := s.pending.erase i, isExplaining := false }

/-- Run an interleaving of request starts and completions. -/
def explainFlagRun (evs : List ExplainEvent) (s : ExplainFlag) : ExplainFlag :=
  evs.foldl explainFlagStep s

/-- The trace of a sequence of non-overlapping requests: each start is
immediately followed by its own completion. -/
def seqTrace : List ℕ → List ExplainEvent
  | [] => []
  | i :: rest => .start i :: .finish i :: seqTrace rest

/-! ## Theorems -/

/-! ### Helper lemmas about the string model -/

theorem dropWhile_length_le (p : Char → Bool) (l : JStr) :
    (l.dropWhile p).length ≤ l.length := by
  induction l with
  | nil => simp [List.dropWhile]
  | cons a t ih =>
    rw [List.dropWhile_cons]
    by_cases h : p a = true
    · simp only [h, if_true]
      exact le_trans ih (by simp)
    · simp [h]

theorem jsTrim_length_le (l : JStr) :
    (jsTrim l).length ≤ (l.dropWhile Char.isWhitespace).length := by
  unfold jsTrim
  rw [List.length_reverse]
  exact le_trans (dropWhile_length_le _ _) (by rw [List.length_reverse])

theorem dropWhile_eq_self_of_headNotWS (l : JStr) (h : headNotWS l) :
    l.dropWhile Char.isWhitespace = l := by
  cases l with
  | nil => rfl
  | cons a t =>
    have ha : a.isWhitespace = false := h a (by simp)
    rw [List.dropWhile_cons, ha]
    simp

theorem jsTrim_eq_self (l : JStr) (h1 : headNotWS l) (h2 : lastNotWS l) :
    jsTrim l = l := by
  unfold jsTrim
  rw [dropWhile_eq_self_of_headNotWS l h1]
  have h3 : headNotWS l.reverse := by
    intro c hc
    rw [List.head?_reverse] at hc
    exact h2 c hc
  rw [dropWhile_eq_self_of_headNotWS l.reverse h3, List.reverse_reverse]

theorem headNotWS_of_jsTrim_eq_self (l : JStr) (h : jsTrim l = l) : headNotWS l := by
  intro c hc
  cases l with
  | nil => simp at hc
  | cons a t =>
    have hac : a = c := by simpa using hc
    subst hac
    by_contra hws
    have hws2 : a.isWhitespace = true := by
      cases hb : a.isWhitespace with
      | false => exact absurd hb hws
      | true => rfl
    have hlen : (jsTrim (a :: t)).length ≤ t.length := by
      have := jsTrim_length_le (a :: t)
      rw [List.dropWhile_cons, hws2] at this
      simp only [if_true] at this
      exact le_trans this (dropWhile_length_le _ _)
    rw [h] at hlen
    simp at hlen

theorem dropWhile_eq_self_of_jsTrim_eq_self (l : JStr) (h : jsTrim l = l) :
    l.dropWhile Char.isWhitespace = l :=
  dropWhile_eq_self_of_headNotWS l (headNotWS_of_jsTrim_eq_self l h)

theorem lastNotWS_of_jsTrim_eq_self (l : JStr) (h : jsTrim l = l) : lastNotWS l := by
  intro c hc
  have hdrop := dropWhile_eq_self_of_jsTrim_eq_self l h
  have hrev : (l.reverse.dropWhile Char.isWhitespace).reverse = l := by
    have := h
    unfold jsTrim at this
    rw [hdrop] at this
    exact this
  rw [← List.head?_reverse] at hc
  cases hr : l.reverse with
  | nil => rw [hr] at hc; simp at hc
  | cons a t =>
    rw [hr] at hc
    have hac : a = c := by simpa using hc
    subst hac
    by_contra hws
    have hws2 : a.isWhitespace = true := by
      cases hb : a.isWhitespace with
      | false => exact absurd hb hws
      | true => rfl
    have hlen : ((l.reverse.dropWhile Char.isWhitespace).reverse).length ≤ t.length := by
      rw [List.length_reverse, hr, List.dropWhile_cons, hws2]
      simp only [if_true]
      exact dropWhile_length_le _ _
    rw [hrev] at hlen
    have : l.length = t.length + 1 := by
      have := congrArg List.length hr
      simpa using this
    omega

theorem jsTrim_space_cons (t : JStr) (ht : jsTrim t = t) : jsTrim (' ' :: t) = t := by
  unfold jsTrim
  have hsp : (' ' : Char).isWhitespace = true := by decide
  rw [List.dropWhile_cons, hsp]
  simp only [if_true]
  rw [dropWhile_eq_self_of_jsTrim_eq_self t ht]
  have h3 : headNotWS t.reverse := by
    intro c hc
    rw [List.head?_reverse] at hc
    exact lastNotWS_of_jsTrim_eq_self t ht c hc
  rw [dropWhile_eq_self_of_headNotWS t.reverse h3, List.reverse_reverse]

theorem jsJoinSpace_push (l : List JStr) (w : JStr) (hl : l ≠ []) :
    jsJoinSpace (l ++ [w]) = jsJoinSpace l ++ ' ' :: w := by
  induction l with
  | nil => exact absurd rfl hl
  | cons a t ih =>
    cases t with
    | nil => rfl
    | cons b r =>
      have step : jsJoinSpace ((b :: r) ++ [w]) = jsJoinSpace (b :: r) ++ ' ' :: w :=
        ih (by simp)
      show a ++ ' ' :: jsJoinSpace ((b :: r) ++ [w]) = (a ++ ' ' :: jsJoinSpace (b :: r)) ++ ' ' :: w
      rw [step]
      simp

theorem jsJoinSpace_ne_nil (l : List JStr) (hl : l ≠ [])
    (h : ∀ x ∈ l, x ≠ []) : jsJoinSpace l ≠ [] := by
  cases l with
  | nil => exact absurd rfl hl
  | cons a t =>
    cases t with
    | nil => exact h a (by simp)
    | cons b r =>
      show a ++ ' ' :: jsJoinSpace (b :: r) ≠ []
      simp

theorem headNotWS_jsJoinSpace (l : List JStr) (h : ∀ x ∈ l, goodSeg x) :
    headNotWS (jsJoinSpace l) := by
  cases l with
  | nil => intro c hc; simp [jsJoinSpace] at hc
  | cons a t =>
    have ha : goodSeg a := h a (by simp)
    have hha : headNotWS a := headNotWS_of_jsTrim_eq_self a ha.1
    cases t with
    | nil => exact hha
    | cons b r =>
      intro c hc
      show c.isWhitespace = false
      apply hha c
      have := @List.head?_append_of_ne_nil _ a (' ' :: jsJoinSpace (b :: r)) ha.2
      rw [← this]
      exact hc

theorem lastNotWS_jsJoinSpace (l : List JStr) (h : ∀ x ∈ l, goodSeg x) :
    lastNotWS (jsJoinSpace l) := by
  induction l with
  | nil => intro c hc; simp [jsJoinSpace] at hc
  | cons a t ih =>
    cases t with
    | nil =>
      exact lastNotWS_of_jsTrim_eq_self a (h a (by simp)).1
    | cons b r =>
      intro c hc
      have hjoin : jsJoinSpace (b :: r) ≠ [] := by
        apply jsJoinSpace_ne_nil (b :: r) (by simp)
        intro x hx
        exact (h x (by simp [hx])).2
      have htail : lastNotWS (jsJoinSpace (b :: r)) := by
        apply ih
        intro x hx
        exact h x (by simp [hx])
      apply htail c
      have e1 : (a ++ ' ' :: jsJoinSpace (b :: r)).getLast? = (' ' :: jsJoinSpace (b :: r)).getLast? :=
        List.getLast?_append_of_ne_nil a (by simp)
      have e2 : (' ' :: jsJoinSpace (b :: r)).getLast? = (jsJoinSpace (b :: r)).getLast? := by
        have : (' ' :: jsJoinSpace (b :: r)) = [' '] ++ jsJoinSpace (b :: r) := by simp
        rw [this]
        exact List.getLast?_append_of_ne_nil [' '] hjoin
      have hc2 : (a ++ ' ' :: jsJoinSpace (b :: r)).getLast? = some c := hc
      rw [e1, e2] at hc2
      exact hc2

theorem jsTrim_join_push (segs : List JStr) (t : JStr) (hsegs : ∀ w ∈ segs, goodSeg w)
    (ht : jsTrim t = t) (hne : t ≠ []) :
    jsTrim (jsJoinSpace segs ++ ' ' :: t) = jsJoinSpace (segs ++ [t]) := by
  cases segs with
  | nil =>
    show jsTrim (' ' :: t) = jsJoinSpace [t]
    rw [jsTrim_space_cons t ht]
    rfl
  | cons a r =>
    have hjoin_ne : jsJoinSpace (a :: r) ≠ [] :=
      jsJoinSpace_ne_nil (a :: r) (by simp) (fun x hx => (hsegs x hx).2)
    rw [jsJoinSpace_push (a :: r) t (by simp)]
    apply jsTrim_eq_self
    · intro c hc
      apply headNotWS_jsJoinSpace (a :: r) hsegs c
      have := @List.head?_append_of_ne_nil _ (jsJoinSpace (a :: r)) (' ' :: t) hjoin_ne
      rw [← this]
      exact hc
    · intro c hc
      apply lastNotWS_of_jsTrim_eq_self t ht c
      have e1 : (jsJoinSpace (a :: r) ++ ' ' :: t).getLast? = (' ' :: t).getLast? :=
        List.getLast?_append_of_ne_nil _ (by simp)
      have e2 : (' ' :: t).getLast? = t.getLast? := by
        have : (' ' :: t) = [' '] ++ t := by simp
        rw [this]
        exact List.getLast?_append_of_ne_nil [' '] hne
      rw [e1, e2] at hc
      exact hc

/-! ### Claims C1 and C2: the rolling buffer query -/

/-- Claim C1 counterexample: a segment whose timestamp is exactly
`now - w` seconds old is excluded by `getBufferedTranscript` (the source
uses a strict `>` cutoff), while the claimed `timestamp >= now - w`
predicate would include it. -/
theorem query_ge_boundary_counterexample :
    getBufferedTranscript 60000 60 [⟨ js "hello", 0⟩] = [] ∧
    querySpecGe 60000 60 [⟨ js "hello", 0⟩] = js "hello" ∧
    getBufferedTranscript 60000 60 [⟨ js "hello", 0⟩] ≠
      querySpecGe 60000 60 [⟨ js "hello", 0⟩] := by decide

/-- Claim C1 (amended): for every buffer and window `w`, the query returns
exactly the currently-held segments with `timestamp` strictly within `w`
seconds of now (`now - timestamp < w*1000`, i.e. `timestamp > now - w*1000`,
not `>=`), in order, space-joined (empty if none match); moreover, for any
`w >= 60` the query over a freshly cleaned buffer returns every retained
segment, so a window larger than the 60-second retention returns exactly
the still-retained segments. -/
theorem getBufferedTranscript_eq_strict_window (now w : Int) (b : List TranscriptEntry) :
    getBufferedTranscript now w b = querySpecGt now w b ∧
    (60 ≤ w → getBufferedTranscript now w (cleanBuffer now b)
        = jsTrim (jsJoinSpace ((cleanBuffer now b).map (fun e => e.text)))) := by
  constructor
  · unfold getBufferedTranscript querySpecGt
    have hfilter : ∀ e ∈ b,
        decide (e.timestamp > now - w * 1000) = decide (now - e.timestamp < w * 1000) := by
      intro e _
      apply decide_eq_decide.mpr
      omega
    rw [List.filter_congr hfilter]
  · intro hw
    unfold getBufferedTranscript
    have hkeep : (cleanBuffer now b).filter
        (fun e => decide (e.timestamp > now - w * 1000)) = cleanBuffer now b := by
      rw [List.filter_eq_self]
      intro e he
      unfold cleanBuffer BUFFER_DURATION_MS at he
      have hmem := List.mem_filter.mp he
      have h60 : e.timestamp > now - 60000 := by
        have := hmem.2
        simpa using this
      apply decide_eq_true
      omega
    rw [hkeep]

/-- Claim C1 witness. -/
theorem getBufferedTranscript_eq_strict_window_witness :
    getBufferedTranscript 70000 75 (cleanBuffer 70000 scenarioBuffer)
      = jsTrim (jsJoinSpace ((cleanBuffer 70000 scenarioBuffer).map (fun e => e.text))) :=
  (getBufferedTranscript_eq_strict_window 70000 75 scenarioBuffer).2 (by decide)

/-- Claim C2 counterexample: in the spec scenario (segments at t=0s
"hello", t=10s "world", t=70s "foo"), `query(60)` at t=70s returns "foo",
not the claimed "world foo": the t=10s segment is exactly 60 seconds old
at the t=70s append and the strict `>` cutoff evicts it as well. -/
theorem scenario_query_counterexample :
    getBufferedTranscript 70000 60 scenarioBuffer = js "foo" ∧
    js "foo" ≠ js "world foo" := by decide

/-- Claim C2 (amended): in the scenario, the append at t=70s evicts both
the t=0s segment and the t=10s segment (the latter being exactly 60
seconds old, at the strict retention boundary), leaving only "foo", and
`query(60)` at t=70s returns "foo". -/
theorem scenario_query_amended :
    scenarioBuffer = [⟨ js "foo", 70000⟩] ∧
    getBufferedTranscript 70000 60 scenarioBuffer = js "foo" := by decide

/-! ### Claim C3: computer-mode audio acquisition -/

/-- Claim C3 counterexample: on a platform without system-audio capability
(`supportsSystemAudio()` false), `computer` mode does not fail — it falls
back to a microphone-based Scribe session, surfacing only a notice. -/
theorem computer_mode_fallback_counterexample :
    startListening .computer ⟨ false, true, .granted true⟩
      = .scribeMic (some fallbackNoticeMsg) ∧
    startListening .computer ⟨ false, true, .granted true⟩
      ≠ .startFailed systemAudioErrorMsg := by decide

/-- Claim C3 (amended): in `computer` mode, when the platform supports
system audio and the display-audio request fails, session start fails with
the system-audio error and does not fall back; but when the platform lacks
system-audio capability, the implementation surfaces a fallback notice and
proceeds with microphone (Scribe) capture instead of failing. -/
theorem computer_mode_error_behavior (env : StartEnv) :
    (env.canUseSystemAudio = true → env.display = .denied →
      startListening .computer env = .startFailed systemAudioErrorMsg) ∧
    (env.canUseSystemAudio = false →
      startListening .computer env = .scribeMic (some fallbackNoticeMsg)) := by
  obtain ⟨cap, mic, disp⟩ := env
  constructor
  · intro hcap hdisp
    simp only at hcap hdisp
    subst hcap
    subst hdisp
    simp [startListening, needsSystemAudio]
  · intro hcap
    simp only at hcap
    subst hcap
    simp [startListening, needsSystemAudio]

/-- Claim C3 witness. -/
theorem computer_mode_error_behavior_witness :
    startListening .computer ⟨ true, true, .denied⟩ = .startFailed systemAudioErrorMsg :=
  (computer_mode_error_behavior ⟨ true, true, .denied⟩).1 rfl rfl

/-! ### Claims C4 and C5: on-demand explanation and its cache -/

/-- Claim C4 counterexample: a successful collaborator response that
classifies the word as NOT jargon but carries a non-empty explanation
still creates a cache entry, and a later call for the same word (any
case, even with a failing collaborator) then reports `isJargon = true`
from that entry — so it is not true that a cache entry is only ever
created from a response that classified the word as jargon. -/
theorem explainWord_nonjargon_cached_counterexample :
    explainWord (js "flux") (.ok (some ⟨ some false, some (js "a term")⟩)) []
      = ((false, some (js "a term")), [(js "flux", js "a term")]) ∧
    explainWord (js "FLUX") .failed [(js "flux", js "a term")]
      = ((true, some (js "a term")), [(js "flux", js "a term")]) := by decide

/-- Claim C4 (amended): `explainWord` checks the cache first under the
lowercased key; a hit returns `isJargon=true` with the cached explanation
and an unchanged cache, independently of the collaborator (so a repeat
call with the word in any letter case after a successful explanation is
served from cache); on a miss, a cache entry is created exactly when the
successful response carries a non-empty explanation — regardless of its
`isJargon` classification; existing entries are never overwritten
(first-write-wins per session). -/
theorem explainWord_cache_behavior (word w2 : JStr) (resp resp2 : ExplainResp)
    (cache : ExplanationCache) :
    (∀ c, cache.lookup (jsToLower word) = some c →
      explainWord word resp cache = ((true, some c), cache)) ∧
    (∀ d e, cache.lookup (jsToLower word) = none → resp = .ok (some d) →
      d.explanation = some e → e ≠ [] →
      explainWord word resp cache
        = ((d.isJargon.getD false, some e), (jsToLower word, e) :: cache)) ∧
    (∀ k v, cache.lookup k = some v → ((explainWord word resp cache).2).lookup k = some v) ∧
    (∀ d e, jsToLower w2 = jsToLower word → cache.lookup (jsToLower word) = none →
      resp = .ok (some d) → d.explanation = some e → e ≠ [] →
      explainWord w2 resp2 ((explainWord word resp cache).2)
        = ((true, some e), (explainWord word resp cache).2)) := by
  have hit : ∀ c, cache.lookup (jsToLower word) = some c →
      explainWord word resp cache = ((true, some c), cache) := by
    intro c hc
    simp [explainWord, hc]
  have miss : ∀ d e, cache.lookup (jsToLower word) = none → resp = .ok (some d) →
      d.explanation = some e → e ≠ [] →
      explainWord word resp cache
        = ((d.isJargon.getD false, some e), (jsToLower word, e) :: cache) := by
    intro d e h0 h1 h2 h3
    subst h1
    simp [explainWord, h0, h2, h3]
  have preserved : ∀ k v, cache.lookup k = some v →
      ((explainWord word resp cache).2).lookup k = some v := by
    intro k v hkv
    cases hl : cache.lookup (jsToLower word) with
    | some c => simp [explainWord, hl, hkv]
    | none =>
      cases resp with
      | failed => simp [explainWord, hl, hkv]
      | ok data =>
        cases data with
        | none => simp [explainWord, hl, hkv]
        | some d =>
          cases hex : d.explanation with
          | none => simp [explainWord, hl, hex, hkv]
          | some e =>
            by_cases he : e = []
            · simp [explainWord, hl, hex, he, hkv]
            · have hne : (k == jsToLower word) = false := by
                apply beq_eq_false_iff_ne.mpr
                intro hkeq
                rw [hkeq] at hkv
                rw [hkv] at hl
                exact Option.noConfusion hl
              simp [explainWord, hl, hex, he, List.lookup_cons, hne, hkv]
  refine ⟨hit, miss, preserved, ?_⟩
  intro d e hcase h0 h1 h2 h3
  have hstep := miss d e h0 h1 h2 h3
  have h4 : (explainWord word resp cache).2 = (jsToLower word, e) :: cache := by
    rw [hstep]
  rw [h4]
  simp [explainWord, List.lookup_cons, hcase]

/-- Claim C4 witness. -/
theorem explainWord_cache_behavior_witness :
    explainWord (js "API") (.ok (some ⟨ some true, some (js "application programming interface")⟩)) []
      = ((true, some (js "application programming interface")),
          [(js "api", js "application programming interface")]) ∧
    explainWord (js "api") .failed [(js "api", js "application programming interface")]
      = ((true, some (js "application programming interface")),
          [(js "api", js "application programming interface")]) := by
  constructor
  · exact (explainWord_cache_behavior (js "API") (js "API")
      (.ok (some ⟨ some true, some (js "application programming interface")⟩))
      (.ok (some ⟨ some true, some (js "application programming interface")⟩)) []).2.1
      ⟨ some true, some (js "application programming interface")⟩
      (js "application programming interface") rfl rfl rfl (by decide)
  · exact (explainWord_cache_behavior (js "api") (js "api") .failed .failed
      [(js "api", js "application programming interface")]).1
      (js "application programming interface") (by decide)

/-- Claim C5 (confirmed): whenever the collaborator is actually consulted
(cache miss) and the call fails, returns an error, or throws/rejects
(the `failed` outcome), `explainWord` returns the safe default
`{isJargon:false, explanation:null}` with the cache unchanged; the Lean
function is total, modelling that the source resolves rather than
rethrows (every failure path is caught). -/
theorem explainWord_failure_safe (word : JStr) (cache : ExplanationCache)
    (h : cache.lookup (jsToLower word) = none) :
    explainWord word .failed cache = ((false, none), cache) := by
  simp [explainWord, h]

/-- Claim C5 witness. -/
theorem explainWord_failure_safe_witness :
    explainWord (js "flux") .failed [] = ((false, none), []) :=
  explainWord_failure_safe (js "flux") [] rfl

/-! ### Claim C6: periodic batch jargon detection -/

/-- Claim C6 counterexample: the effect re-runs on every transcript change
and calls `detectJargon` immediately, so two transcript changes 1000 ms
apart produce two classifier invocations within one default 5000 ms
interval — the classifier is NOT limited to once per interval. -/
theorem detection_interval_counterexample :
    (detRun [ .change 0 (js "hello") (some []), .change 1000 (js "hello world") (some [])]
        ⟨ [], ⟨ [], [], []⟩⟩).det.invocations
      = [(0, js "hello"), (1000, js "hello world")] ∧
    (1000 : Int) - 0 < detectionIntervalMsDefault := by decide

/-- Claim C6 (amended): the classifier is invoked on each timer tick only
when the transcript differs from the last successfully analyzed snapshot
(exact string comparison), and additionally once immediately on every
transcript change; it is never invoked when the transcript is unchanged
between two ticks, and never on an empty (whitespace-only) transcript —
but transcript changes inside one interval do trigger extra invocations,
so the once-per-interval bound does not hold. -/
theorem detection_trigger_conditions :
    (∀ s t r, s.transcript = s.det.lastAnalyzed → detStep s (.tick t r) = s) ∧
    (∀ s t r, jsTrim s.transcript = [] →
      (detStep s (.tick t r)).det.invocations = s.det.invocations) ∧
    (∀ s t txt r, jsTrim txt = [] →
      (detStep s (.change t txt r)).det.invocations = s.det.invocations) ∧
    (∀ s t txt r, jsTrim txt ≠ [] → txt ≠ s.det.lastAnalyzed →
      (detStep s (.change t txt r)).det.invocations = s.det.invocations ++ [(t, txt)]) ∧
    (∀ evs s0, (∀ p ∈ s0.det.invocations, jsTrim p.2 ≠ []) →
      ∀ p ∈ (detRun evs s0).det.invocations, jsTrim p.2 ≠ []) := by
  have step_inv : ∀ s ev p, p ∈ (detStep s ev).det.invocations →
      p ∈ s.det.invocations ∨ jsTrim p.2 ≠ [] := by
    intro s ev p hp
    cases ev with
    | change t txt r =>
      simp only [detStep] at hp
      by_cases hg : jsTrim txt = [] ∨ txt = s.det.lastAnalyzed
      · rw [detectJargon.eq_def, if_pos hg] at hp
        exact Or.inl hp
      · rw [detectJargon.eq_def, if_neg hg] at hp
        push_neg at hg
        cases r with
        | none =>
          simp only [List.mem_append, List.mem_singleton] at hp
          cases hp with
          | inl h => exact Or.inl h
          | inr h => subst h; exact Or.inr hg.1
        | some ws =>
          simp only [List.mem_append, List.mem_singleton] at hp
          cases hp with
          | inl h => exact Or.inl h
          | inr h => subst h; exact Or.inr hg.1
    | tick t r =>
      simp only [detStep] at hp
      by_cases hc : s.transcript = s.det.lastAnalyzed
      · rw [if_pos hc] at hp
        exact Or.inl hp
      · rw [if_neg hc] at hp
        simp only at hp
        by_cases hg : jsTrim s.transcript = [] ∨ s.transcript = s.det.lastAnalyzed
        · rw [detectJargon.eq_def, if_pos hg] at hp
          exact Or.inl hp
        · rw [detectJargon.eq_def, if_neg hg] at hp
          push_neg at hg
          cases r with
          | none =>
            simp only [List.mem_append, List.mem_singleton] at hp
            cases hp with
            | inl h => exact Or.inl h
            | inr h => subst h; exact Or.inr hg.1
          | some ws =>
            simp only [List.mem_append, List.mem_singleton] at hp
            cases hp with
            | inl h => exact Or.inl h
            | inr h => subst h; exact Or.inr hg.1
  refine ⟨?_, ?_, ?_, ?_, ?_⟩
  · intro s t r h
    simp [detStep, h]
  · intro s t r h
    by_cases hc : s.transcript = s.det.lastAnalyzed
    · simp [detStep, hc]
    · simp only [detStep, if_neg hc]
      rw [detectJargon.eq_def, if_pos (Or.inl h)]
  · intro s t txt r h
    simp only [detStep]
    rw [detectJargon.eq_def, if_pos (Or.inl h)]
  · intro s t txt r h1 h2
    simp only [detStep]
    rw [detectJargon.eq_def, if_neg (by push_neg; exact ⟨h1, h2⟩)]
    cases r with
    | none => rfl
    | some ws => rfl
  · intro evs
    induction evs with
    | nil => intro s0 h p hp; exact h p hp
    | cons ev rest ih =>
      intro s0 h p hp
      simp only [detRun, List.foldl_cons] at hp
      apply ih (detStep s0 ev)
      · intro q hq
        cases step_inv s0 ev q hq with
        | inl hmem => exact h q hmem
        | inr hne => exact hne
      · exact hp

/-- Claim C6 witness. -/
theorem detection_trigger_conditions_witness :
    detStep ⟨ js "hi there", ⟨ js "hi there", [], []⟩⟩ (.tick 5000 none)
      = ⟨ js "hi there", ⟨ js "hi there", [], []⟩⟩ ∧
    (detStep ⟨ js "hi", ⟨ [], [], []⟩⟩ (.change 0 (js "hi") (some []))).det.invocations
      = [] ++ [(0, js "hi")] := by
  constructor
  · exact detection_trigger_conditions.1 ⟨ js "hi there", ⟨ js "hi there", [], []⟩⟩ 5000 none rfl
  · exact detection_trigger_conditions.2.2.2.1 ⟨ js "hi", ⟨ [], [], []⟩⟩ 0 (js "hi") (some [])
      (by decide) (by decide)

/-! ### Claim C7: the PCM encoder -/

/-- Claim C7 (confirmed): each `onaudioprocess` callback of native-rate
samples yields `floor(inputLen / ratio)` output samples with
`ratio = nativeRate / 16000`; the `i`-th output sample is taken from
source index `floor(i * ratio)` (which is always in bounds), clamped to
`[-1, 1]` and scaled by `0x7FFF` when non-negative and `0x8000` when
negative (then stored into the int16 array); the frame is then
base64-encoded and sent, with 4096 native samples per callback. -/
theorem encodeFrame_spec (nativeRate : ℕ) (hpos : 0 < nativeRate) (input : List ℚ) :
    (encodeFrame nativeRate input).length = outputLength nativeRate input.length ∧
    (∀ i, i < outputLength nativeRate input.length →
      srcIndex nativeRate i < input.length ∧
      (encodeFrame nativeRate input)[i]? =
        some (int16OfSample (input.getD (srcIndex nativeRate i) 0))) := by
  constructor
  · simp [encodeFrame]
  · intro i hi
    have hr : (0 : ℚ) < rateQuotient nativeRate := by
      unfold rateQuotient targetSampleRate
      positivity
    have hbound : srcIndex nativeRate i < input.length := by
      unfold outputLength at hi
      unfold srcIndex
      have h1 : ((i : ℤ)) < ⌊(input.length : ℚ) / rateQuotient nativeRate⌋ := by
        omega
      have h2 : ((i : ℚ) + 1) ≤ (input.length : ℚ) / rateQuotient nativeRate := by
        have := Int.le_floor.mp (by omega : (i : ℤ) + 1 ≤ ⌊(input.length : ℚ) / rateQuotient nativeRate⌋)
        push_cast at this
        linarith
      have h3 : ((i : ℚ) + 1) * rateQuotient nativeRate ≤ (input.length : ℚ) :=
        (le_div_iff₀ hr).mp h2
      have h4 : (i : ℚ) * rateQuotient nativeRate < (input.length : ℚ) := by
        have hlt : (i : ℚ) * rateQuotient nativeRate < ((i : ℚ) + 1) * rateQuotient nativeRate := by
          apply mul_lt_mul_of_pos_right _ hr
          linarith
        linarith
      have h5 : ⌊(i : ℚ) * rateQuotient nativeRate⌋ < (input.length : ℤ) := by
        apply Int.floor_lt.mpr
        push_cast
        exact h4
      have h6 : (0 : ℤ) ≤ ⌊(i : ℚ) * rateQuotient nativeRate⌋ := by
        apply Int.floor_nonneg.mpr
        positivity
      omega
    refine ⟨hbound, ?_⟩
    simp [encodeFrame, List.getElem?_map, List.getElem?_range hi]

/-- Claim C7 witness. -/
theorem encodeFrame_spec_witness :
    srcIndex 48000 100 < (List.replicate 4096 (0 : ℚ)).length ∧
    (encodeFrame 48000 (List.replicate 4096 (0 : ℚ)))[100]? =
      some (int16OfSample ((List.replicate 4096 (0 : ℚ)).getD (srcIndex 48000 100) 0)) :=
  (encodeFrame_spec 48000 (by norm_num) (List.replicate 4096 0)).2 100 (by
    rw [List.length_replicate]
    have h : (⌊((4096 : ℚ) / rateQuotient 48000)⌋ : ℤ) = 1365 := by
      norm_num [rateQuotient, targetSampleRate]
    simp [outputLength, h])

/-! ### Claim C8: the committed-text accumulator -/

theorem runCommitted_inv (evs : List JStr) : ∀ (s : LiveTranscript),
    (∀ t ∈ evs, jsTrim t = t) →
    (∀ w ∈ s.segments, goodSeg w) →
    s.committedText = jsJoinSpace s.segments →
    (runCommitted evs s).committedText = jsJoinSpace (runCommitted evs s).segments ∧
    (runCommitted evs s).segments = s.segments ++ evs.filter (fun t => decide (t ≠ [])) ∧
    ∀ w ∈ (runCommitted evs s).segments, goodSeg w := by
  induction evs with
  | nil =>
    intro s hevs hseg hct
    exact ⟨hct, by simp [runCommitted], hseg⟩
  | cons t rest ih =>
    intro s hevs hseg hct
    have ht : jsTrim t = t := hevs t (by simp)
    have hrest : ∀ x ∈ rest, jsTrim x = x := fun x hx => hevs x (by simp [hx])
    have hrun : runCommitted (t :: rest) s = runCommitted rest (handleCommitted t s) := rfl
    by_cases hne : t = []
    · subst hne
      have hstep : handleCommitted [] s = s := by
        simp [handleCommitted, jsTrim]
      rw [hrun, hstep]
      have h := ih s hrest hseg hct
      refine ⟨h.1, ?_, h.2.2⟩
      rw [h.2.1]
      simp
    · have hnet : jsTrim t ≠ [] := by rw [ht]; exact hne
      have hstep : handleCommitted t s =
          ⟨s.segments ++ [t], jsJoinSpace (s.segments ++ [t]), []⟩ := by
        simp only [handleCommitted, hnet, if_pos, ht]
        have hc2 : jsTrim (s.committedText ++ ' ' :: t) = jsJoinSpace (s.segments ++ [t]) := by
          rw [hct]
          exact jsTrim_join_push s.segments t hseg ht hne
        rw [hc2]
        simp [hne]
      have hseg2 : ∀ w ∈ s.segments ++ [t], goodSeg w := by
        intro w hw
        rcases List.mem_append.mp hw with hw1 | hw2
        · exact hseg w hw1
        · have : w = t := by simpa using hw2
          subst this
          exact ⟨ht, hne⟩
      rw [hrun, hstep]
      have h := ih ⟨s.segments ++ [t], jsJoinSpace (s.segments ++ [t]), []⟩ hrest hseg2 rfl
      refine ⟨h.1, ?_, h.2.2⟩
      rw [h.2.1]
      simp only [List.filter_cons, decide_eq_true_eq]
      have : (decide (t ≠ []) : Bool) = true := decide_eq_true hne
      simp [hne, List.append_assoc]

/-- Claim C8 counterexample: the Scribe-path `handleCommitted` appends the
raw, untrimmed event text to the accumulated transcript (only trimming the
ends of the whole), so after committed events "a" and "  b" the
accumulated text is "a   b" while the space-joined segment texts give
"a b" — the claimed equality fails. -/
theorem committedText_raw_append_counterexample :
    (runCommitted [ js "a", js "  b"] ⟨ [], [], []⟩).committedText = js "a   b" ∧
    jsJoinSpace (runCommitted [ js "a", js "  b"] ⟨ [], [], []⟩).segments = js "a b" ∧
    (runCommitted [ js "a", js "  b"] ⟨ [], [], []⟩).committedText
      ≠ jsJoinSpace (runCommitted [ js "a", js "  b"] ⟨ [], [], []⟩).segments := by decide

/-- Claim C8 (amended): provided every committed event text arrives
already trimmed (as on the WebSocket path, which trims before forwarding),
the accumulated committed text equals the space-joined concatenation of
all committed segment texts appended so far — each non-empty text is
appended as a segment and the interim text is cleared; with untrimmed
event texts the Scribe path appends the raw text and the equality can
fail (see the counterexample). -/
theorem committedText_eq_joined_segments (evs : List JStr)
    (hevs : ∀ t ∈ evs, jsTrim t = t) :
    (runCommitted evs ⟨ [], [], []⟩).committedText
      = jsJoinSpace (runCommitted evs ⟨ [], [], []⟩).segments ∧
    (runCommitted evs ⟨ [], [], []⟩).segments = evs.filter (fun t => decide (t ≠ [])) ∧
    (∀ raw s, jsTrim raw ≠ [] → (handleCommitted raw s).interimText = []) := by
  have h := runCommitted_inv evs ⟨ [], [], []⟩ hevs (by simp) (by simp [jsJoinSpace])
  refine ⟨h.1, by simpa using h.2.1, ?_⟩
  intro raw s hne
  simp [handleCommitted, hne]

/-- Claim C8 witness. -/
theorem committedText_eq_joined_segments_witness :
    (runCommitted [ js "hello", js "world"] ⟨ [], [], []⟩).committedText
      = jsJoinSpace (runCommitted [ js "hello", js "world"] ⟨ [], [], []⟩).segments :=
  (committedText_eq_joined_segments [ js "hello", js "world"] (by decide)).1

/-! ### Claim C9: the "is explaining" flag -/

/-- Claim C9 counterexample: with two overlapping requests, the first
completion runs `finally setIsExplaining(false)` while the second request
is still pending, so the flag is false with one request outstanding — it
is not true in every interleaving that the flag equals "at least one
request pending". -/
theorem isExplaining_overlap_counterexample :
    explainFlagRun [ .start 0, .start 1, .finish 0] ⟨ [], false⟩ = ⟨ [1], false⟩ ∧
    ([1] : List ℕ) ≠ [] := by decide

/-- Claim C9 (amended): the flag is set to true whenever a request starts
(and the start is never gated on the flag — the request is added
unconditionally, so overlapping requests are not blocked) and set to
false whenever any request completes; consequently it correctly tracks
"at least one request outstanding" for non-overlapping request histories,
but with overlapping requests the first completion clears it while other
requests are still pending. -/
theorem isExplaining_flag_behavior :
    (∀ s i, explainFlagStep s (.start i) = ⟨ i :: s.pending, true⟩) ∧
    (∀ s i, (explainFlagStep s (.finish i)).isExplaining = false) ∧
    (∀ reqs, explainFlagRun (seqTrace reqs) ⟨ [], false⟩ = ⟨ [], false⟩) := by
  refine ⟨ fun s i => rfl, fun s i => rfl, ?_⟩
  intro reqs
  induction reqs with
  | nil => rfl
  | cons i rest ih =>
    show explainFlagRun (.start i :: .finish i :: seqTrace rest) ⟨ [], false⟩ = ⟨ [], false⟩
    have h1 : explainFlagRun (.start i :: .finish i :: seqTrace rest) ⟨ [], false⟩
        = explainFlagRun (seqTrace rest)
            (explainFlagStep (explainFlagStep ⟨ [], false⟩ (.start i)) (.finish i)) := rfl
    have h2 : explainFlagStep (explainFlagStep ⟨ [], false⟩ (.start i)) (.finish i)
        = ⟨ [], false⟩ := by
      simp [explainFlagStep]
    rw [h1, h2]
    exact ih

/-! ### Claim C10: whitespace-only committed events -/

/-- Claim C10 (confirmed): a committed event whose text trims to empty is
a complete no-op on both the Scribe path and the WebSocket path: no
segment is appended, the accumulated committed text is unchanged, and the
interim text is left as it was (not cleared). -/
theorem whitespace_committed_noop (raw : JStr) (s : LiveTranscript)
    (h : jsTrim raw = []) :
    handleCommitted raw s = s ∧ wsCommitted raw s = s := by
  constructor <;> simp [handleCommitted, wsCommitted, h]

/-- Claim C10 witness. -/
theorem whitespace_committed_noop_witness :
    handleCommitted (js "  ") ⟨ [js "x"], js "x", js "tentative words"⟩
        = ⟨ [js "x"], js "x", js "tentative words"⟩ ∧
    wsCommitted (js "  ") ⟨ [js "x"], js "x", js "tentative words"⟩
        = ⟨ [js "x"], js "x", js "tentative words"⟩ :=
  whitespace_committed_noop (js "  ") ⟨ [js "x"], js "x", js "tentative words"⟩ (by decide)

end Plainspeak
